import Mathlib

/-
Verification development for the SentinelForge core: shallow embedding of
the rules engine (automation/custom_rules.py), the checkpoint/undo log
(automation/undo.py), the learning store (intelligence/learning.py), the
classifier and pattern detector (ai/analyzer.py) and the relationship
detector (intelligence/relationships.py), together with proofs about the
properties the specification states for them.

Modelling conventions:
- Python strings are Lean `String`; byte contents of files are `String`.
- Python floats only ever enter the embedded claims through exact
  arithmetic (counters, floor divisions with denominators at most 20, and
  additive updates), so they are modelled as `Int`/`Nat`/`Rat`; the claims
  never exercise rounding behaviour where binary floating point differs
  from exact arithmetic on the reachable inputs.
- `datetime` values are modelled at whole-day granularity as integers.
- The filesystem is a map from path to file contents (`Fs`); directory
  creation has no observable effect in this model and `shutil.copy2` is
  modelled as copying the content.
- `os.path.relpath` is modelled as the identity, which is its behaviour on
  already-relative normalised paths.
- `re.search` with a user-supplied regular expression (the `regex_match`
  condition kind) is modelled as an oracle parameter threaded through the
  rules engine; no claim exercises it.
-/

namespace SentinelForge

/-! ## Generic helpers -/

/-- Decimal digit characters of `n`, most significant first, computed with
explicit fuel so that the definition is structural and kernel-evaluable.
`decChars (n+1) n` always has enough fuel. -/
def decChars : Nat → Nat → List Char
  | 0, _ => []
  | fuel + 1, n =>
    if n < 10 then [Nat.digitChar n]
    else decChars fuel (n / 10) ++ [Nat.digitChar (n % 10)]

/-- Decimal representation of a natural number; models Python `str(n)` /
f-string interpolation of a non-negative integer. -/
def natRepr (n : Nat) : String := ⟨decChars (n + 1) n⟩

/-- Reads a decimal digit list back into a number (proof tool for the
injectivity of `natRepr`). -/
def ofChars (l : List Char) : Nat := l.foldl (fun a c => a * 10 + (c.toNat - 48)) 0

/-- Does `needle` start `hay`? Auxiliary for the substring test. -/
def startsWithB : List Char → List Char → Bool
  | [], _ => true
  | _ :: _, [] => false
  | c :: cs, d :: ds => c = d && startsWithB cs ds

/-- Does `needle` occur contiguously inside `hay`? Models the Python
`needle in hay` test on strings. -/
def containsB (needle : List Char) : List Char → Bool
  | [] => needle.isEmpty
  | c :: rest => startsWithB needle (c :: rest) || containsB needle rest

/-- String-level substring test: models Python `needle in hay`. -/
def strContains (hay needle : String) : Bool := containsB needle.data hay.data

/-- ASCII lowercasing of one character (Python `str.lower()` restricted to
ASCII, which is all the embedded string constants use). -/
def lowerChar (c : Char) : Char :=
  if 'A' ≤ c ∧ c ≤ 'Z' then Char.ofNat (c.toNat + 32) else c

/-- ASCII `str.lower()`. -/
def strLower (s : String) : String := ⟨s.data.map lowerChar⟩

/-- First-occurrence deduplication: the key order of a Python dict built by
inserting the elements of the list in order. -/
def insertOrder : List String → List String
  | [] => []
  | t :: rest => t :: (insertOrder rest).filter (fun u => u ≠ t)

/-- Replaces the first element satisfying `p` (Python mutates the first
matching object found by a scan of the list). -/
def updateFirst (p : α → Bool) (f : α → α) : List α → List α
  | [] => []
  | a :: l => if p a then f a :: l else a :: updateFirst p f l

/-! ## Rules engine (automation/custom_rules.py) -/

/-- Value of a condition: the source stores either a string or a number in
the `value` slot of the condition dict. -/
inductive CondValue where
  | str (s : String)
  | num (n : Int)
deriving DecidableEq

/-- String payload of a condition value. Conditions whose value is a number
where the source expects a string would raise in Python; that crash path is
never exercised by the claims and is given a harmless default here. -/
def CondValue.strVal : CondValue → String
  | .str s => s
  | .num _ => ""

/-- Numeric payload of a condition value (same remark as `strVal`). -/
def CondValue.numVal : CondValue → Int
  | .num n => n
  | .str _ => 0

/-- One condition dict: `type`, `value`, and the optional keys
`case_sensitive` (absent modelled as `false`, the `.get` default) and
`operator` (absent modelled as `none`; the per-kind `.get` defaults are
applied at evaluation time, as in the source). -/
structure Condition where
  ctype : String
  value : CondValue
  case_sensitive : Bool := false
  operator : Option String := none
deriving DecidableEq

/-- A file information dict as consumed by the engine. Missing
`modified_time` is `none`; `size_mb` defaults to 0 at evaluation like the
source's `.get("size_mb", 0)`. Sizes and times are exact integers (see the
header note on floats and dates). -/
structure FileInfo where
  name : String := ""
  path : String := ""
  extension : String := ""
  size_mb : Int := 0
  modified_time : Option Int := none
deriving DecidableEq

/-- Glob matching for `fnmatch` (fuel-based so that it is structural).
Supports `*`, `?`, literal characters and `[...]`/`[!...]` classes with
ranges; an unterminated class matches `[` literally, as CPython's
translation effectively treats slice errors. No claim exercises
`filename_matches`, the embedding only needs a total function here. -/
def globClassChars : List Char → Option (List Char × List Char)
  | [] => none
  | ']' :: rest => some ([], rest)
  | c :: rest =>
    match globClassChars rest with
    | some (cls, rest') => some (c :: cls, rest')
    | none => none

/-- Does character `c` belong to the (already negation-stripped) class
character list, interpreting `a-b` ranges? -/
def globClassMem (c : Char) : List Char → Bool
  | a :: '-' :: b :: rest =>
    (a ≤ c && c ≤ b) || globClassMem c rest
  | a :: rest => (c = a) || globClassMem c rest
  | [] => false

def globMatchF : Nat → List Char → List Char → Bool
  | 0, p, s => p.isEmpty && s.isEmpty
  | fuel + 1, p, s =>
    match p, s with
    | [], s => s.isEmpty
    | '*' :: p', s =>
      globMatchF fuel p' s ||
        (match s with
         | [] => false
         | _ :: s' => globMatchF fuel ('*' :: p') s')
    | '?' :: p', _ :: s' => globMatchF fuel p' s'
    | '?' :: _, [] => false
    | '[' :: p', s =>
      match globClassChars p', s with
      | some (cls, prest), c :: s' =>
        let neg := cls.head? = some '!'
        let cls' := if neg then cls.drop 1 else cls
        (if neg then !globClassMem c cls' else globClassMem c cls') && globMatchF fuel prest s'
      | some _, [] => false
      | none, c :: s' => (c = '[') && globMatchF fuel p' s'
      | none, [] => false
    | a :: p', c :: s' => (a = c) && globMatchF fuel p' s'
    | _ :: _, [] => false

/-- The `fnmatch.fnmatch(filename, pattern)` test (POSIX case behaviour). -/
def globMatch (pat s : String) : Bool :=
  globMatchF (pat.data.length + s.data.length + 1) pat.data s.data

/-- The oracle type used to model `re.search(pattern, filename)`; the
`regex_match` condition kind is the only consumer and no claim exercises
it. -/
def RegexOracle := String → String → Bool

/-- Evaluation of one condition against a file, following the dispatch on
`condition["type"]` in `evaluate_conditions`. Unknown types fall through
and pass. `now` is the current day used by the `age_days` branch. -/
def evalCond (rg : RegexOracle) (now : Int) (f : FileInfo) (c : Condition) : Bool :=
  if c.ctype = "filename_contains" then
    let filename := strLower f.name
    let v := if c.case_sensitive then c.value.strVal else strLower c.value.strVal
    strContains filename v
  else if c.ctype = "filename_matches" then
    globMatch c.value.strVal f.name
  else if c.ctype = "extension_is" then
    f.extension = c.value.strVal
  else if c.ctype = "size_mb" then
    let op := c.operator.getD "="
    if op = ">" then f.size_mb > c.value.numVal
    else if op = "<" then f.size_mb < c.value.numVal
    else if op = "=" then f.size_mb = c.value.numVal
    else true
  else if c.ctype = "age_days" then
    match f.modified_time with
    | none => false
    | some mt =>
      let age := now - mt
      let op := c.operator.getD ">"
      if op = ">" then age > c.value.numVal
      else if op = "<" then age < c.value.numVal
      else true
  else if c.ctype = "folder_contains" then
    strContains f.path c.value.strVal
  else if c.ctype = "regex_match" then
    rg c.value.strVal f.name
  else
    true

/-- `evaluate_conditions`: the conjunction of all conditions (the source's
short-circuit on a first failing condition is observationally the same for
a pure evaluation). -/
def evaluate_conditions (rg : RegexOracle) (now : Int) (f : FileInfo) (conds : List Condition) : Bool :=
  conds.all (evalCond rg now f)

/-- An action dict of a rule (`{"type": ..., "destination": ...}`). -/
structure RAction where
  atype : String
  destination : String
deriving DecidableEq

/-- A custom rule. Keys that may be absent in the source dicts are given
their `.get` defaults here: `match_count` 0, `stop_on_match` false,
`enabled` true. `created_at` is a timestamp never read back and is
omitted. -/
structure Rule where
  id : String
  name : String
  enabled : Bool := true
  conditions : List Condition := []
  actions : List RAction := []
  priority : Int := 5
  match_count : Nat := 0
  stop_on_match : Bool := false
deriving DecidableEq

/-- The two seed rules installed by `_get_default_rules` when no rules file
exists. -/
def defaultRules : List Rule :=
  [ { id := "rule_1", name := "Screenshots to Screenshots folder",
      enabled := true,
      conditions := [{ ctype := "filename_contains", value := .str ("screenshot"),
                       case_sensitive := false }],
      actions := [{ atype := "move", destination := "Screenshots" }],
      priority := 10 },
    { id := "rule_2", name := "Old downloads cleanup",
      enabled := true,
      conditions := [{ ctype := "folder_contains", value := .str ("Downloads") },
                     { ctype := "age_days", operator := some (">"), value := .num 90 }],
      actions := [{ atype := "archive", destination := "Old Downloads" }],
      priority := 5 } ]

/-- `add_rule`: appends a rule whose id is `rule_{len(self.rules)+1}` and
returns the new store together with the id. -/
def add_rule (rules : List Rule) (name : String) (conds : List Condition)
    (acts : List RAction) (priority : Int) : List Rule × String :=
  let rule_id := "rule_" ++ natRepr (rules.length + 1)
  (rules ++ [{ id := rule_id, name := name, enabled := true, conditions := conds,
               actions := acts, priority := priority, match_count := 0 }], rule_id)

/-- `delete_rule`: removes every rule with the given id. -/
def delete_rule (rules : List Rule) (rid : String) : List Rule :=
  rules.filter (fun r => r.id ≠ rid)

/-- One sequence step on the rule store: an `add_rule` or a `delete_rule`
call. -/
inductive RuleOp where
  | addR (name : String) (conds : List Condition) (acts : List RAction) (priority : Int)
  | delR (rid : String)
deriving DecidableEq

def RuleOp.isAdd : RuleOp → Bool
  | .addR _ _ _ _ => true
  | .delR _ => false

def applyOp (rules : List Rule) : RuleOp → List Rule
  | .addR n c a p => (add_rule rules n c a p).1
  | .delR rid => delete_rule rules rid

/-- Runs a sequence of `add_rule`/`delete_rule` operations on a store. -/
def runOps (rules : List Rule) (ops : List RuleOp) : List Rule :=
  ops.foldl applyOp rules

/-- Stable descending insertion used to model Python's stable
`sorted(..., key=priority, reverse=True)`: an element is placed after all
earlier elements of greater or equal priority. -/
def insertDesc (r : Nat × Rule) : List (Nat × Rule) → List (Nat × Rule)
  | [] => [r]
  | x :: xs => if r.2.priority ≤ x.2.priority then x :: insertDesc r xs else r :: x :: xs

def sortRules (l : List (Nat × Rule)) : List (Nat × Rule) :=
  l.foldl (fun acc r => insertDesc r acc) []

/-- The enabled rules, paired with their index in the store (the index
models Python object identity for the later `match_count` write-back), in
priority-descending stable order. -/
def sortedEnabled (rules : List Rule) : List (Nat × Rule) :=
  sortRules (rules.enum.filter (fun ir => ir.2.enabled))

/-- One triggered-action record appended to `file_actions[file_path]`. -/
structure Triggered where
  rule_id : String
  rule_name : String
  action : RAction
deriving DecidableEq

/-- The rules (with store indices) that trigger on one file, honouring
`stop_on_match`: a matching rule with the flag ends the scan for this
file. -/
def fileMatches (rg : RegexOracle) (now : Int) :
    List (Nat × Rule) → FileInfo → List (Nat × Rule)
  | [], _ => []
  | ir :: rest, f =>
    if evaluate_conditions rg now f ir.2.conditions then
      if ir.2.stop_on_match then [ir]
      else ir :: fileMatches rg now rest f
    else fileMatches rg now rest f

/-- The `{rule_id, rule_name, action}` records a list of matched rules
contributes, in order. -/
def triggeredFor (ms : List (Nat × Rule)) : List Triggered :=
  ms.flatMap (fun ir => ir.2.actions.map (fun a => ⟨ir.2.id, ir.2.name, a⟩))

/-- `apply_rules`: returns the store with updated `match_count`s together
with the `file_path -> triggered actions` mapping. A path never written is
mapped to `[]` (the source's dict simply lacks the key). The source
increments `match_count` by mutating the rule dict; the per-index
occurrence count over all files models exactly that. -/
def applyRules (rg : RegexOracle) (now : Int) (rules : List Rule)
    (files : List FileInfo) : List Rule × (String → List Triggered) :=
  let sorted := sortedEnabled rules
  let matched := files.map (fun f => (f.path, fileMatches rg now sorted f))
  let fa : String → List Triggered :=
    matched.foldl
      (fun acc pm => fun p => if p = pm.1 then acc p ++ triggeredFor pm.2 else acc p)
      (fun _ => [])
  let hits : Nat → Nat := fun i =>
    (matched.flatMap (fun pm => pm.2.map Prod.fst)).count i
  (rules.enum.map (fun ir => { ir.2 with match_count := ir.2.match_count + hits ir.1 }), fa)

/-! ## Checkpoint / undo log (automation/undo.py) -/

/-- The filesystem as seen by the undo system: a map from path to file
contents, `none` meaning the path does not exist. -/
def Fs := String → Option String

/-- Pointwise update of the filesystem map. -/
def fsUpdate (fs : Fs) (p : String) (v : Option String) : Fs :=
  fun q => if q = p then v else fs q

/-- One `BackupEntry` of a checkpoint. The source stores `size_mb` as
`os.path.getsize(...) / (1024*1024)`; we record the byte count, which no
claim reads. -/
structure BackupEntry where
  original_path : String
  backup_path : String
  size_bytes : Nat
deriving DecidableEq

/-- One checkpoint dict. `undone` is absent at creation and read through
`.get("undone", False)`, modelled by the field defaulting to `false`;
likewise `restore_count`/`restore_errors` are only written by undo and
start at their defaults. Wall-clock timestamps are not modelled. -/
structure Checkpoint where
  id : String
  operation : String
  description : String
  files_count : Nat
  files : List BackupEntry
  checkpoint_dir : String
  can_undo : Bool := true
  undone : Bool := false
  restore_count : Nat := 0
  restore_errors : List String := []

/-- The persistent state of the undo system (`history.json` plus the
configured backup directory). -/
structure UndoState where
  backup_dir : String
  history : List Checkpoint

/-- Result dict of `undo_checkpoint`: success with
`checkpoint_id`/`files_restored`/`errors`, or a structured failure with an
`error` message. -/
inductive UndoResult where
  | ok (checkpoint_id : String) (files_restored : Nat) (errors : List String)
  | err (msg : String)
deriving DecidableEq

def UndoResult.success : UndoResult → Bool
  | .ok _ _ _ => true
  | .err _ => false

structure UndoOut where
  state : UndoState
  fs : Fs
  result : UndoResult

structure CreateOut where
  state : UndoState
  fs : Fs
  checkpoint_id : String

/-- The backup path used for an affected file: the checkpoint directory
joined with the file's relative path (`os.path.relpath` modelled as the
identity on relative paths). -/
def backupPathOf (st : UndoState) (cid p : String) : String :=
  st.backup_dir ++ "/" ++ cid ++ "/" ++ p

/-- Backing up one affected file during `create_checkpoint`: existing files
are copied into the checkpoint directory and recorded; paths that do not
exist are skipped. Copy failures (the `except` branch) are not modelled:
copies on the map always succeed. -/
def backupStep (st : UndoState) (cid : String) :
    Fs × List BackupEntry → String → Fs × List BackupEntry
  | (fs, entries), p =>
    match fs p with
    | none => (fs, entries)
    | some content =>
      let bp := backupPathOf st cid p
      (fsUpdate fs bp (some content), entries ++ [⟨p, bp, content.length⟩])

/-- `create_checkpoint`. The timestamp-derived checkpoint id is supplied by
the caller as `cid` (the source derives it from `datetime.now()`). -/
def createCheckpoint (fs : Fs) (st : UndoState) (cid opType desc : String)
    (files_affected : List String) : CreateOut :=
  let cdir := st.backup_dir ++ "/" ++ cid
  let r := files_affected.foldl (backupStep st cid) (fs, [])
  let cp : Checkpoint :=
    { id := cid, operation := opType, description := desc,
      files_count := r.2.length, files := r.2, checkpoint_dir := cdir,
      can_undo := true }
  ⟨{ st with history := st.history ++ [cp] }, r.1, cid⟩

/-- Restoring one backup entry during `undo_checkpoint`: if the backup file
exists it is copied back over the original path, otherwise a per-file error
is collected and the restore continues. -/
def restoreStep : Fs × Nat × List String → BackupEntry → Fs × Nat × List String
  | (fs, n, errs), e =>
    match fs e.backup_path with
    | some content => (fsUpdate fs e.original_path (some content), n + 1, errs)
    | none => (fs, n, errs ++ ["Backup not found: " ++ e.backup_path])

/-- The mutation `undo_checkpoint` applies to the found checkpoint after
restoring: mark it undone and record the restore count and errors. -/
def markUndone (n : Nat) (errs : List String) (c : Checkpoint) : Checkpoint :=
  { c with undone := true, restore_count := n, restore_errors := errs }

/-- `undo_checkpoint`: structured failure when the id is unknown or the
checkpoint is already undone; otherwise restores every backup entry,
marks the (first) checkpoint with this id undone and reports the restore
count and per-file errors. -/
def undoCheckpoint (fs : Fs) (st : UndoState) (cid : String) : UndoOut :=
  match st.history.find? (fun c => c.id == cid) with
  | none => ⟨st, fs, .err ("Checkpoint not found")⟩
  | some cp =>
    if cp.undone then ⟨st, fs, .err ("Already undone")⟩
    else
      let r := cp.files.foldl restoreStep (fs, 0, [])
      let hist' := updateFirst (fun c => c.id == cid) (markUndone r.2.1 r.2.2) st.history
      ⟨{ st with history := hist' }, r.1, .ok cid r.2.1 r.2.2⟩

/-- A higher-priority rule with empty conditions and `stop_on_match` set:
it matches every file and halts rule evaluation for that file. -/
def exRuleStop : Rule :=
  { id := "rule_1", name := "stop everything", priority := 10,
    stop_on_match := true, actions := [⟨"move", "X"⟩] }

/-- An enabled lower-priority rule with an empty conditions list. -/
def exRuleEmpty : Rule :=
  { id := "rule_2", name := "always", priority := 5, actions := [⟨"move", "Y"⟩] }

/-- A concrete file for the rules-engine examples. -/
def exFile : FileInfo := { name := "n", path := "p" }

/-- A concrete checkpoint, state and filesystem used by the witnesses of
the undo-log theorems. -/
def exCp : Checkpoint :=
  { id := "c1", operation := "cleanup", description := "d", files_count := 1,
    files := [⟨"a", "bk/c1/a", 1⟩], checkpoint_dir := "bk/c1" }

def exUndoState : UndoState := { backup_dir := "bk", history := [exCp] }

def exFs : Fs := fun p => if p = "bk/c1/a" then some ("x") else none

/-- A two-file filesystem for the round-trip witness. -/
def exFs2 : Fs := fun p =>
  if p = "f1" then some ("xx") else if p = "f2" then some ("yy") else none

/-! ## Learning store (intelligence/learning.py) -/

/-- The keys of an action's `details` dict that `record_action` reads.
Fractional quantities are exact rationals (see the header note). -/
structure Details where
  age_days : Option ℚ := none
  style : Option String := none
  files_count : Option Nat := none
  space_freed : Option ℚ := none
deriving DecidableEq

/-- One entry of the `user_actions` log (the wall-clock timestamp the
source also stores is never read by any embedded operation). -/
structure UserAction where
  atype : String
  accepted : Bool
  details : Details := {}
deriving DecidableEq

/-- The `stats` sub-dict of the learning memory (`learning_since` is a
timestamp never read back and is not modelled). -/
structure Stats where
  total_actions : Nat := 0
  files_cleaned : Nat := 0
  files_organized : Nat := 0
  files_archived : Nat := 0
  space_freed_mb : ℚ := 0
deriving DecidableEq

/-- The `stat_key in self.memory["stats"]` guarded increment of
`record_action`: only a key naming one of the `files_*` counters has an
effect; any other constructed key is absent from the stats dict and the
increment is silently skipped. -/
def statIncr (st : Stats) (key : String) (n : Nat) : Stats :=
  if key = "files_cleaned" then { st with files_cleaned := st.files_cleaned + n }
  else if key = "files_organized" then { st with files_organized := st.files_organized + n }
  else if key = "files_archived" then { st with files_archived := st.files_archived + n }
  else st

/-- The learning memory. The two defaultdict-style preference counters are
total maps defaulting to 0; `folder_patterns`, `file_type_preferences`,
`cleanup_thresholds` and `preferred_times` are never touched by the
embedded operations and are omitted. -/
structure Memory where
  user_actions : List UserAction := []
  favorite_actions : String → Nat := fun _ => 0
  avoided_actions : String → Nat := fun _ => 0
  organization_style : String := "by_type"
  cleanup_frequency : Nat := 0
  organization_frequency : Nat := 0
  archive_frequency : Nat := 0
  avg_cleanup_age_days : ℚ := 30
  stats : Stats := {}

/-- `_initialize_memory`. -/
def initMemory : Memory := {}

/-- `record_action(action_type, details, accepted)`: appends to the log,
updates preference counters, frequencies, the recency-biased average
cleanup age, the cumulative stats, and caps the log at the last 1000
entries. -/
def record_action (m : Memory) (action_type : String) (details : Details)
    (accepted : Bool) : Memory :=
  let m1 : Memory := { m with user_actions :=
    m.user_actions ++ [({ atype := action_type, accepted := accepted, details := details } : UserAction)] }
  let m2 : Memory :=
    if accepted then
      let mf : Memory := { m1 with favorite_actions :=
        fun t => if t = action_type then m1.favorite_actions t + 1 else m1.favorite_actions t }
      if action_type = "cleanup" then
        let mc : Memory := { mf with cleanup_frequency := mf.cleanup_frequency + 1 }
        match details.age_days with
        | some a => { mc with avg_cleanup_age_days := (mc.avg_cleanup_age_days + a) / 2 }
        | none => mc
      else if action_type = "organize" then
        let mo : Memory := { mf with organization_frequency := mf.organization_frequency + 1 }
        match details.style with
        | some s => { mo with organization_style := s }
        | none => mo
      else if action_type = "archive" then
        { mf with archive_frequency := mf.archive_frequency + 1 }
      else mf
    else
      { m1 with avoided_actions :=
        fun t => if t = action_type then m1.avoided_actions t + 1 else m1.avoided_actions t }
  let m3 : Memory := { m2 with stats := { m2.stats with total_actions := m2.stats.total_actions + 1 } }
  let m4 : Memory :=
    match details.files_count with
    | some n => { m3 with stats := statIncr m3.stats ("files_" ++ action_type ++ "d") n }
    | none => m3
  let m5 : Memory :=
    match details.space_freed with
    | some s => { m4 with stats := { m4.stats with space_freed_mb := m4.stats.space_freed_mb + s } }
    | none => m4
  if 1000 < m5.user_actions.length then
    { m5 with user_actions := m5.user_actions.drop (m5.user_actions.length - 1000) }
  else m5

/-- The `self.memory["user_actions"][-20:]` window of
`predict_next_action`. -/
def recentWindow (m : Memory) : List UserAction :=
  m.user_actions.drop (m.user_actions.length - 20)

/-- Number of accepted actions of kind `t` inside a window: the count the
source accumulates in `action_counts`. -/
def acceptedCount (w : List UserAction) (t : String) : Nat :=
  (w.filter (fun a => a.accepted && a.atype == t)).length

/-- The distinct kinds of the accepted actions of the window in first-seen
order — the key order of the `action_counts` dict. -/
def acceptedKinds (w : List UserAction) : List String :=
  insertOrder ((w.filter (fun a => a.accepted)).map (fun a => a.atype))

/-- Python's `max(items, key=...)` over the dict items: the first key of
maximal count wins ties. -/
def firstMaxBy (counts : String → Nat) (k : String) (ks : List String) : String × Nat :=
  ks.foldl (fun best u => if counts u > best.2 then (u, counts u) else best) (k, counts k)

/-- `predict_next_action`: `(None, 0)` when the recent window is empty or
contains no accepted action; otherwise the accepted kind of greatest count
within the window, with confidence `int(count / len(window) * 100)`
(exact floor division agrees with the source's float arithmetic on the
whole reachable domain, where the window never exceeds 20 entries). -/
def predict_next_action (m : Memory) : Option String × Nat :=
  let recent := recentWindow m
  if recent.isEmpty then (none, 0)
  else
    match acceptedKinds recent with
    | [] => (none, 0)
    | k :: ks =>
      let best := firstMaxBy (acceptedCount recent) k ks
      (some best.1, best.2 * 100 / recent.length)

/-- A concrete learning memory used by the prediction witness: two
accepted actions of different kinds and one rejected action. -/
def exMem : Memory :=
  { user_actions := [{ atype := "cleanup", accepted := true },
                     { atype := "organize", accepted := true },
                     { atype := "organize", accepted := false }] }

/-- A memory whose only logged action is a rejection: the recent window is
nonempty yet holds no accepted action. -/
def exMemRejected : Memory :=
  { user_actions := [{ atype := "cleanup", accepted := false }] }

/-! ## Classifier and pattern detector (ai/analyzer.py) -/

/-- One entry of the `file_categories` knowledge base: extensions, keyword
substrings and the default priority. -/
structure CategoryRule where
  cname : String
  extensions : List String
  keywords : List String
  priority : String
deriving DecidableEq

/-- The `file_categories` table of `_initialize_intelligence`, in its
Python dict insertion order (which is the iteration order of the scoring
loop). -/
def fileCategories : List CategoryRule :=
  [ ⟨"images",
     [".jpg", ".jpeg", ".png", ".gif", ".bmp", ".svg", ".webp", ".ico", ".tiff", ".heic"],
     ["photo", "image", "img", "pic", "screenshot", "wallpaper", "avatar", "icon"],
     "organize"⟩,
    ⟨"documents",
     [".pdf", ".doc", ".docx", ".txt", ".rtf", ".odt", ".pages"],
     ["report", "doc", "letter", "resume", "cv", "notes", "invoice", "receipt"],
     "archive"⟩,
    ⟨"spreadsheets",
     [".xls", ".xlsx", ".csv", ".ods", ".numbers"],
     ["data", "sheet", "budget", "finance", "expense", "tracking"],
     "archive"⟩,
    ⟨"presentations",
     [".ppt", ".pptx", ".key", ".odp"],
     ["presentation", "slides", "deck"],
     "archive"⟩,
    ⟨"videos",
     [".mp4", ".avi", ".mkv", ".mov", ".wmv", ".flv", ".webm", ".m4v"],
     ["video", "movie", "clip", "recording", "screen"],
     "organize"⟩,
    ⟨"audio",
     [".mp3", ".wav", ".flac", ".aac", ".ogg", ".m4a", ".wma"],
     ["audio", "music", "song", "sound", "podcast", "voice"],
     "organize"⟩,
    ⟨"archives",
     [".zip", ".rar", ".7z", ".tar", ".gz", ".bz2", ".xz"],
     ["archive", "backup", "compressed"],
     "archive"⟩,
    ⟨"code",
     [".py", ".js", ".jsx", ".ts", ".tsx", ".java", ".cpp", ".c", ".h", ".cs", ".go", ".rs", ".php", ".rb", ".swift"],
     ["src", "source", "code", "script", "main", "test"],
     "keep"⟩,
    ⟨"web",
     [".html", ".htm", ".css", ".scss", ".sass", ".less"],
     ["web", "site", "page", "index", "style"],
     "keep"⟩,
    ⟨"config",
     [".json", ".yaml", ".yml", ".toml", ".ini", ".cfg", ".conf", ".xml"],
     ["config", "settings", "package", "manifest"],
     "keep"⟩,
    ⟨"temporary",
     [".tmp", ".temp", ".bak", ".old", ".cache", ".log", ".swp", ".swo", "~"],
     ["temp", "backup", "copy", "old", "cache", "log"],
     "delete"⟩,
    ⟨"installers",
     [".exe", ".msi", ".dmg", ".pkg", ".deb", ".rpm", ".appimage"],
     ["setup", "install", "installer", "download"],
     "cleanup"⟩,
    ⟨"databases",
     [".db", ".sqlite", ".sql", ".mdb", ".accdb"],
     ["database", "data", "backup"],
     "keep"⟩ ]

/-- Score of one category for a file with (already lowercased) extension
and name: 50 for an extension match plus 20 when some keyword occurs in
the name (the source's keyword loop breaks at the first hit, so at most
one bonus). -/
def catScore (cat : CategoryRule) (ext name : String) : Nat :=
  (if ext ∈ cat.extensions then 50 else 0)
    + (if cat.keywords.any (fun k => strContains name k) then 20 else 0)

/-- One step of the category scan: a category replaces the current best
exactly when its score is strictly greater. -/
def classifyStep (ext name : String) (acc : String × Nat) (cat : CategoryRule) : String × Nat :=
  let score := catScore cat ext name
  if score > acc.2 then (cat.cname, score) else acc

/-- The category scan of `_categorize_files` for a single file: the
category with the strictly greatest score wins, starting from
`("uncategorized", 0)`. -/
def categorizeOne (f : FileInfo) : String × Nat :=
  fileCategories.foldl (classifyStep (strLower f.extension) (strLower f.name)) ("uncategorized", 0)

/-- The `temporary` entry of the knowledge base (position 10 of the
table), named for the classification proofs. -/
def tempCategory : CategoryRule :=
  ⟨"temporary",
   [".tmp", ".temp", ".bak", ".old", ".cache", ".log", ".swp", ".swo", "~"],
   ["temp", "backup", "copy", "old", "cache", "log"],
   "delete"⟩

/-- Python's `\s` on ASCII input. -/
def pySpace (c : Char) : Bool :=
  c = ' ' || c = '\t' || c = '\n' || c = '\r' || c = Char.ofNat 11 || c = Char.ofNat 12

/-- Matches the tail of the `_copy` alternative after an underscore was
seen. -/
def copyTail : List Char → Option (List Char)
  | 'c' :: 'o' :: 'p' :: 'y' :: r => some r
  | _ => none

/-- Matches the tail of the parenthesised-number alternative after an
underscore was seen: an opening parenthesis, at least one digit, and a
closing parenthesis. -/
def parenTail : List Char → Option (List Char)
  | '(' :: r =>
    if (r.takeWhile Char.isDigit).isEmpty then none
    else
      match r.dropWhile Char.isDigit with
      | ')' :: r2 => some r2
      | _ => none
  | _ => none

/-- Matches the tail of the whitespace-hyphen-whitespace-copy alternative
after the first whitespace character was seen. -/
def dashTail : List Char → Option (List Char)
  | '-' :: d :: 'c' :: 'o' :: 'p' :: 'y' :: r => if pySpace d then some r else none
  | _ => none

/-- One left-to-right deletion pass of the duplicate-cluster normalisation
regex of `_detect_patterns`: at every position, a maximal digit run, then
the token `_copy`, then `_(digits)`, then whitespace-hyphen-whitespace
`copy` are tried in alternation order and the leftmost, first-alternative
match is deleted; otherwise the character is kept. Fuel-based so that the
definition is structural; `pyNormF l.length l` always has enough fuel and
extra fuel is harmless for the lemmas proved below. -/
def pyNormF : Nat → List Char → List Char
  | 0, l => l
  | _ + 1, [] => []
  | fuel + 1, c :: rest =>
    if c.isDigit then pyNormF fuel (rest.dropWhile Char.isDigit)
    else if c = '_' then
      match copyTail rest with
      | some r => pyNormF fuel r
      | none =>
        match parenTail rest with
        | some r => pyNormF fuel r
        | none => c :: pyNormF fuel rest
    else if pySpace c then
      match dashTail rest with
      | some r => pyNormF fuel r
      | none => c :: pyNormF fuel rest
    else c :: pyNormF fuel rest

/-- The duplicate-cluster name normalisation
`re.sub(r'\d+|_copy|_\(\d+\)|\s-\scopy', '', name)`. -/
def pyNormalize (s : String) : String := ⟨pyNormF s.data.length s.data⟩

/-- Does one of the regex alternatives match at the head of the list? -/
def matchesAt : List Char → Bool
  | [] => false
  | c :: rest =>
    c.isDigit || (c = '_' && ((copyTail rest).isSome || (parenTail rest).isSome))
      || (pySpace c && (dashTail rest).isSome)

/-- A character list on which no alternative of the normalisation regex
matches at any position. -/
def cleanName : List Char → Bool
  | [] => true
  | c :: rest => !matchesAt (c :: rest) && cleanName rest

/-- Replacement of every maximal digit run by the placeholder `#`
(`re.sub(r'\d+', '#', name)`), fuel-based like `pyNormF`. -/
def digitHashF : Nat → List Char → List Char
  | 0, l => l
  | _ + 1, [] => []
  | fuel + 1, c :: rest =>
    if c.isDigit then '#' :: digitHashF fuel (rest.dropWhile Char.isDigit)
    else c :: digitHashF fuel rest

/-- The digit-run-to-placeholder base pattern shared by the series
detectors of `_detect_patterns` and `detect_file_series`. -/
def digitHash (s : String) : String := ⟨digitHashF s.data.length s.data⟩

/-! ## Relationship detector (intelligence/relationships.py) -/

/-- The files of a batch whose name shares the digit-normalised pattern
`p`. -/
def groupOf (files : List FileInfo) (p : String) : List FileInfo :=
  files.filter (fun f => digitHash f.name = p)

/-- The distinct digit-normalised patterns of a batch in first-occurrence
order: the key order of the `defaultdict` the two series detectors
build. -/
def groupKeys (files : List FileInfo) : List String :=
  insertOrder (files.map (fun f => digitHash f.name))

/-- The grouped batch, in dict iteration order. -/
def seriesGroups (files : List FileInfo) : List (String × List FileInfo) :=
  (groupKeys files).map (fun p => (p, groupOf files p))

/-- Value of a decimal digit run. -/
def digitVal (l : List Char) : Nat :=
  l.foldl (fun a c => a * 10 + (c.toNat - 48)) 0

/-- The first maximal digit run of a character list, if any. -/
def firstRun : List Char → Option (List Char)
  | [] => none
  | c :: rest => if c.isDigit then some (c :: rest.takeWhile Char.isDigit) else firstRun rest

/-- `int(re.search(r'\d+', name).group())`: the value of the first digit
run of the name, if any. -/
def firstNumber (s : String) : Option Nat := (firstRun s.data).map digitVal

/-- Stable ascending insertion sort on naturals, modelling
`numbers.sort()`. -/
def insertAsc (n : Nat) : List Nat → List Nat
  | [] => [n]
  | x :: xs => if x ≤ n then x :: insertAsc n xs else n :: x :: xs

def sortNats (l : List Nat) : List Nat := l.foldl (fun acc n => insertAsc n acc) []

/-- The `all(numbers[i+1] - numbers[i] == 1 ...)` check on the sorted
number list. -/
def seqCheck : List Nat → Bool
  | [] => true
  | [_] => true
  | a :: b :: rest => (b - a == 1) && seqCheck (b :: rest)

/-- One detected series record of `detect_file_series`. -/
structure SeriesRec where
  pattern : String
  files : List FileInfo
  count : Nat
  is_sequential : Bool
  range : String
deriving DecidableEq

/-- `detect_file_series`: keeps every pattern group with at least 3 files
whose pattern contains the placeholder, extracts the first number of each
file name, sorts them, and reports sequentiality and the min-max range. -/
def detect_file_series (files : List FileInfo) : List SeriesRec :=
  (seriesGroups files).filterMap (fun g =>
    if 3 ≤ g.2.length && g.1.data.contains '#' then
      let numbers := sortNats (g.2.filterMap (fun f => firstNumber f.name))
      some { pattern := g.1, files := g.2, count := g.2.length,
             is_sequential := seqCheck numbers,
             range :=
               match numbers with
               | [] => "unknown"
               | n :: rest => natRepr n ++ "-" ++ natRepr (rest.getLastD n) }
    else none)

/-- The series component of the analyzer's `_detect_patterns`: the groups
(by the same digit-normalised pattern of the raw name) with strictly more
than 3 files. -/
def analyzerSeriesGroups (files : List FileInfo) : List (List FileInfo) :=
  (seriesGroups files).filterMap (fun g => if 3 < g.2.length then some g.2 else none)

/-! ## Helper lemmas -/

theorem ofChars_append_singleton (l : List Char) (d : Char) :
    ofChars (l ++ [d]) = ofChars l * 10 + (d.toNat - 48) := by
  simp [ofChars, List.foldl_append]

theorem ofChars_decChars (fuel n : Nat) (h : n < 10 ^ fuel) :
    ofChars (decChars fuel n) = n := by
  induction fuel generalizing n with
  | zero =>
    simp [Nat.pow_zero, Nat.lt_one_iff] at h
    subst h
    simp [decChars, ofChars]
  | succ fuel ih =>
    by_cases hn : n < 10
    · have hsmall : ∀ m, m < 10 → ofChars [Nat.digitChar m] = m := by decide
      simp [decChars, hn, hsmall n hn]
    · have hdiv : n / 10 < 10 ^ fuel := by
        have h10 : (0:Nat) < 10 := by norm_num
        rw [Nat.div_lt_iff_lt_mul h10]
        calc n < 10 ^ (fuel + 1) := h
        _ = 10 ^ fuel * 10 := by rw [Nat.pow_succ]
      have hmod : ∀ m, m < 10 → (Nat.digitChar m).toNat - 48 = m := by decide
      have hm : n % 10 < 10 := Nat.mod_lt _ (by norm_num)
      simp only [decChars, hn, if_false, ofChars_append_singleton, ih _ hdiv, hmod _ hm]
      omega

theorem natRepr_injective : Function.Injective natRepr := by
  intro a b hab
  have hdata : decChars (a + 1) a = decChars (b + 1) b := congrArg String.data hab
  have ha : a < 10 ^ (a + 1) :=
    lt_of_lt_of_le (Nat.lt_pow_self (by norm_num) a)
      (Nat.pow_le_pow_right (by norm_num) (Nat.le_succ a))
  have hb : b < 10 ^ (b + 1) :=
    lt_of_lt_of_le (Nat.lt_pow_self (by norm_num) b)
      (Nat.pow_le_pow_right (by norm_num) (Nat.le_succ b))
  calc a = ofChars (decChars (a + 1) a) := (ofChars_decChars _ _ ha).symm
  _ = ofChars (decChars (b + 1) b) := by rw [hdata]
  _ = b := ofChars_decChars _ _ hb

theorem string_append_left_cancel {pre x y : String} (h : pre ++ x = pre ++ y) : x = y := by
  have hd : pre.data ++ x.data = pre.data ++ y.data := by
    have := congrArg String.data h
    simpa [String.data_append] using this
  cases x; cases y
  simp_all [List.append_cancel_left hd]

theorem mem_insertOrder {l : List String} {t : String} : t ∈ insertOrder l ↔ t ∈ l := by
  induction l with
  | nil => simp [insertOrder]
  | cons a rest ih =>
    by_cases hta : t = a
    · subst hta
      simp [insertOrder]
    · simp [insertOrder, List.mem_filter, hta, ih]

theorem insertOrder_eq_nil {l : List String} : insertOrder l = [] ↔ l = [] := by
  cases l with
  | nil => simp [insertOrder]
  | cons a rest => simp [insertOrder]

theorem find?_updateFirst (p : α → Bool) (f : α → α) (l : List α)
    (hp : ∀ a, p a = true → p (f a) = true) :
    (updateFirst p f l).find? p = (l.find? p).map f := by
  induction l with
  | nil => simp [updateFirst]
  | cons a l ih =>
    by_cases ha : p a = true
    · simp [updateFirst, ha, List.find?_cons, hp a ha]
    · have ha' : p a = false := by simp_all
      simp [updateFirst, ha', List.find?_cons, ih]

/-! ## C5 -/

/-- C5: the claim states that a `filename_contains` condition with
`case_sensitive = true` performs a case-respecting substring test, so that
a condition whose value equals the file's name verbatim passes. The code
lowercases the file name unconditionally while leaving a case-sensitive
value untouched, so the condition below — whose value is exactly the
file's name — evaluates to `false`: the code contradicts the evident
intent of its own `case_sensitive` flag. -/
theorem filename_contains_case_sensitive_divergence :
    ∀ (rg : RegexOracle) (now : Int),
      evaluate_conditions rg now { name := "Report.txt" }
        [{ ctype := "filename_contains", value := .str ("Report.txt"),
           case_sensitive := true }] = false := by
  intro rg now
  simp only [evaluate_conditions, List.all_cons, List.all_nil, Bool.and_true, evalCond,
    if_pos rfl, if_true]
  decide

/-! ## C6 -/

/-- C6: the claim states that an accepted `cleanup` action recorded with
`files_count = n` and `space_freed = s` increases the files-cleaned
counter by `n` and `space_freed_mb` by `s`. The code builds the stats key
as `f"files_{action_type}d"`, which for `cleanup` yields `files_cleanupd`
— a key absent from the stats dict — so `files_cleaned` is never
incremented, even though `space_freed_mb` is and the analogous `organize`
and `archive` counters (keys `files_organized` / `files_archived`) do
work. Evaluated at the failing input below. -/
theorem record_action_files_cleaned_divergence :
    (record_action initMemory ("cleanup")
        { files_count := some 3, space_freed := some 5 } true).stats
      = { total_actions := 1, files_cleaned := 0, files_organized := 0,
          files_archived := 0, space_freed_mb := 5 }
    ∧ (record_action initMemory ("organize") { files_count := some 3 } true).stats.files_organized = 3
    ∧ (record_action initMemory ("archive") { files_count := some 3 } true).stats.files_archived = 3 := by
  refine ⟨?_, ?_, ?_⟩ <;> simp [record_action, initMemory, statIncr]

/-! ## C8 -/

/-- C8 counterexample: the duplicate-cluster normalisation is not
idempotent. One pass over `_cop1y` removes the digit and produces
`_copy`, and a second pass removes that token. -/
theorem normalize_not_idempotent :
    pyNormalize (pyNormalize ("_cop1y")) ≠ pyNormalize ("_cop1y") := by decide

theorem pyNormF_of_cleanName (l : List Char) (h : cleanName l = true) :
    ∀ fuel, pyNormF fuel l = l := by
  induction l with
  | nil => intro fuel; cases fuel <;> rfl
  | cons c rest ih =>
    intro fuel
    cases fuel with
    | zero => rfl
    | succ fuel =>
      have hm : matchesAt (c :: rest) = false := by
        have := h
        simp [cleanName] at this
        exact this.1
      have hrest : cleanName rest = true := by
        have := h
        simp [cleanName] at this
        exact this.2
      have hdig : c.isDigit = false := by
        cases hd : c.isDigit
        · rfl
        · rw [matchesAt] at hm; simp [hd] at hm
      by_cases hc : c = '_'
      · have hcopy : copyTail rest = none := by
          cases hco : copyTail rest
          · rfl
          · rw [matchesAt] at hm; simp [hc, hco] at hm
        have hparen : parenTail rest = none := by
          cases hpa : parenTail rest
          · rfl
          · rw [matchesAt] at hm; simp [hc, hpa] at hm
        simp [pyNormF, hdig, hc, hcopy, hparen, ih hrest]
      · by_cases hs : pySpace c = true
        · have hdash : dashTail rest = none := by
            cases hda : dashTail rest
            · rfl
            · rw [matchesAt] at hm; simp [hs, hda] at hm
          simp [pyNormF, hdig, hc, hs, hdash, ih hrest]
        · have hs' : pySpace c = false := by simp_all
          simp [pyNormF, hdig, hc, hs', ih hrest]

/-- C8 (amended): the normalisation is idempotent exactly on the names
whose normalised form contains no residual occurrence of a removable
token; a single pass always removes every digit run it scans, but deleting
a token can splice a new `_copy` or ` - copy` together (the
counterexample), in which case a second pass differs. -/
theorem normalize_idempotent_on_clean (s : String)
    (h : cleanName (pyNormalize s).data = true) :
    pyNormalize (pyNormalize s) = pyNormalize s := by
  show (⟨pyNormF (pyNormalize s).data.length (pyNormalize s).data⟩ : String) = pyNormalize s
  rw [pyNormF_of_cleanName _ h]

/-- C8 witness: a concrete name whose normalisation is clean, on which the
amended idempotence theorem applies. -/
theorem normalize_idempotent_on_clean_witness :
    cleanName (pyNormalize ("photo_99.jpg")).data = true
    ∧ pyNormalize (pyNormalize ("photo_99.jpg")) = pyNormalize ("photo_99.jpg") :=
  ⟨by decide, normalize_idempotent_on_clean ("photo_99.jpg") (by decide)⟩

/-! ## C3 -/

/-- C3 counterexample: starting from the default store (ids `rule_1`,
`rule_2`), adding a rule (which gets id `rule_3`), deleting `rule_1` and
adding another rule reassigns `rule_3` — `add_rule` derives the id from
the current store length, so after a deletion the stored ids are no longer
pairwise distinct. -/
theorem rule_ids_can_collide :
    ¬ ((runOps defaultRules
          [.addR ("a") [] [] 5, .delR ("rule_1"), .addR ("b") [] [] 5]).map
        (fun r => r.id)).Nodup := by decide

/-- The id shape `rule_1 .. rule_n` of a store that has only ever been
extended by `add_rule`. -/
def idsPattern (n : Nat) : List String :=
  (List.range n).map (fun j => "rule_" ++ natRepr (j + 1))

theorem runOps_add_only_pattern (ops : List RuleOp) :
    ∀ rules : List Rule, (∀ op ∈ ops, op.isAdd = true) →
      rules.map (fun r => r.id) = idsPattern rules.length →
      (runOps rules ops).map (fun r => r.id) = idsPattern (runOps rules ops).length := by
  induction ops with
  | nil => intro rules _ h; simpa [runOps] using h
  | cons op ops ih =>
    intro rules hops h
    cases op with
    | delR rid =>
      have : RuleOp.isAdd (.delR rid) = true := hops _ (by simp)
      simp [RuleOp.isAdd] at this
    | addR n c a p =>
      have hops' : ∀ op ∈ ops, op.isAdd = true := fun op hop => hops op (by simp [hop])
      have hstep : (applyOp rules (.addR n c a p)).map (fun r => r.id)
          = idsPattern (applyOp rules (.addR n c a p)).length := by
        have hlen : (applyOp rules (.addR n c a p)).length = rules.length + 1 := by
          simp [applyOp, add_rule]
        rw [hlen]
        simp only [applyOp, add_rule, List.map_append, h, List.map_cons, List.map_nil]
        simp [idsPattern, List.range_succ]
      have := ih (applyOp rules (.addR n c a p)) hops' hstep
      simpa [runOps] using this

/-- C3 (amended): newly assigned rule ids stay pairwise distinct through
every sequence consisting of `add_rule` operations only (starting from the
default store); as the counterexample shows, a `delete_rule` followed by
an `add_rule` can reassign an existing id, because ids are derived from
the current store length. -/
theorem add_only_rule_ids_nodup (ops : List RuleOp)
    (h : ∀ op ∈ ops, op.isAdd = true) :
    ((runOps defaultRules ops).map (fun r => r.id)).Nodup := by
  have hbase : defaultRules.map (fun r => r.id) = idsPattern defaultRules.length := by decide
  have hpat := runOps_add_only_pattern ops defaultRules h hbase
  rw [hpat]
  refine List.Nodup.map ?_ (List.nodup_range _)
  intro x y hxy
  have := string_append_left_cancel hxy
  have := natRepr_injective this
  omega

/-- C3 witness: two additions on the default store keep the ids pairwise
distinct. -/
theorem add_only_rule_ids_nodup_witness :
    (∀ op ∈ ([.addR ("a") [] [] 5, .addR ("b") [] [] 3] : List RuleOp), op.isAdd = true)
    ∧ ((runOps defaultRules [.addR ("a") [] [] 5, .addR ("b") [] [] 3]).map
        (fun r => r.id)).Nodup :=
  ⟨by decide, add_only_rule_ids_nodup _ (by decide)⟩

/-! ## C9 -/

theorem catScore_le_of_not_mem (cat : CategoryRule) (ext name : String)
    (h : ext ∉ cat.extensions) : catScore cat ext name ≤ 20 := by
  unfold catScore
  rw [if_neg h]
  split <;> omega

theorem catScore_ge_of_mem (cat : CategoryRule) (ext name : String)
    (h : ext ∈ cat.extensions) : 50 ≤ catScore cat ext name := by
  unfold catScore
  rw [if_pos h]
  split <;> omega

theorem classifyStep_of_gt (ext name : String) (acc : String × Nat) (cat : CategoryRule)
    (h : catScore cat ext name > acc.2) :
    classifyStep ext name acc cat = (cat.cname, catScore cat ext name) := by
  unfold classifyStep
  rw [if_pos h]

theorem classifyStep_of_le (ext name : String) (acc : String × Nat) (cat : CategoryRule)
    (h : ¬ catScore cat ext name > acc.2) :
    classifyStep ext name acc cat = acc := by
  unfold classifyStep
  rw [if_neg h]

theorem foldl_classify_snd_le (ext name : String) (cats : List CategoryRule)
    (acc : String × Nat) (hacc : acc.2 ≤ 20)
    (hcats : ∀ cat ∈ cats, ext ∉ cat.extensions) :
    (cats.foldl (classifyStep ext name) acc).2 ≤ 20 := by
  induction cats generalizing acc with
  | nil => simpa using hacc
  | cons cat cats ih =>
    have hs := catScore_le_of_not_mem cat ext name (hcats cat (by simp))
    rw [List.foldl_cons]
    apply ih
    · by_cases hgt : catScore cat ext name > acc.2
      · rw [classifyStep_of_gt ext name acc cat hgt]
        simpa using hs
      · rw [classifyStep_of_le ext name acc cat hgt]
        exact hacc
    · exact fun c hc => hcats c (List.mem_cons_of_mem _ hc)

theorem foldl_classify_fixed (ext name : String) (cats : List CategoryRule)
    (acc : String × Nat) (hacc : 50 ≤ acc.2)
    (hcats : ∀ cat ∈ cats, ext ∉ cat.extensions) :
    cats.foldl (classifyStep ext name) acc = acc := by
  induction cats with
  | nil => rfl
  | cons cat cats ih =>
    have hs := catScore_le_of_not_mem cat ext name (hcats cat (by simp))
    rw [List.foldl_cons, classifyStep_of_le ext name acc cat (by omega)]
    exact ih (fun c hc => hcats c (List.mem_cons_of_mem _ hc))

theorem temp_wins (e name : String) (hmem : e ∈ tempCategory.extensions)
    (hpre : ∀ cat ∈ fileCategories.take 10, e ∉ cat.extensions)
    (hpost : ∀ cat ∈ fileCategories.drop 11, e ∉ cat.extensions) :
    (fileCategories.foldl (classifyStep e name) ("uncategorized", 0)).1 = "temporary"
    ∧ 50 ≤ (fileCategories.foldl (classifyStep e name) ("uncategorized", 0)).2 := by
  have hsplit : fileCategories
      = fileCategories.take 10 ++ tempCategory :: fileCategories.drop 11 := by decide
  rw [hsplit, List.foldl_append, List.foldl_cons]
  have hA : (List.foldl (classifyStep e name) ("uncategorized", 0) (fileCategories.take 10)).2 ≤ 20 :=
    foldl_classify_snd_le e name _ _ (by simp) hpre
  have hscore : 50 ≤ catScore tempCategory e name := catScore_ge_of_mem _ _ _ hmem
  rw [classifyStep_of_gt e name _ tempCategory (by omega),
    foldl_classify_fixed e name _ _ (by simpa using hscore) hpost]
  exact ⟨rfl, hscore⟩

/-- C9: for every file whose extension is `.tmp`, `.bak`, `.old` or
`.cache`, and every possible file name, the classifier assigns category
`temporary` with a score of at least 50: the extension belongs only to the
`temporary` entry of the knowledge base (worth 50), and every other
category can earn at most the single 20-point keyword bonus, so the
strict-maximum scan settles on `temporary`. -/
theorem temporary_extension_classified (f : FileInfo)
    (h : f.extension ∈ ([".tmp", ".bak", ".old", ".cache"] : List String)) :
    (categorizeOne f).1 = "temporary" ∧ 50 ≤ (categorizeOne f).2 := by
  have h' : f.extension = ".tmp" ∨ f.extension = ".bak" ∨ f.extension = ".old"
      ∨ f.extension = ".cache" := by simpa using h
  unfold categorizeOne
  rcases h' with he | he | he | he <;>
    rw [he] <;>
    [ (rw [(by decide : strLower (".tmp") = ".tmp")];
       exact temp_wins _ _ (by decide) (by decide) (by decide));
      (rw [(by decide : strLower (".bak") = ".bak")];
       exact temp_wins _ _ (by decide) (by decide) (by decide));
      (rw [(by decide : strLower (".old") = ".old")];
       exact temp_wins _ _ (by decide) (by decide) (by decide));
      (rw [(by decide : strLower (".cache") = ".cache")];
       exact temp_wins _ _ (by decide) (by decide) (by decide))]

/-- C9 witness: a concrete `.tmp` file. -/
theorem temporary_extension_classified_witness :
    (({ name := "x", extension := ".tmp" } : FileInfo).extension
        ∈ ([".tmp", ".bak", ".old", ".cache"] : List String))
    ∧ (categorizeOne { name := "x", extension := ".tmp" }).1 = "temporary"
    ∧ 50 ≤ (categorizeOne { name := "x", extension := ".tmp" }).2 :=
  ⟨by decide, temporary_extension_classified _ (by decide)⟩

/-! ## C7 -/

/-- C7 counterexample: `detect_file_series` keeps every pattern group with
at least 3 files (and a placeholder in the pattern), so a group of exactly
3 files IS reported as a series, contradicting the claimed
strictly-greater-than-3 threshold. -/
theorem three_file_group_reported :
    ∃ r ∈ detect_file_series
        [{ name := "a1.txt" }, { name := "a2.txt" }, { name := "a3.txt" }],
      r.count = 3 := by decide

theorem mem_groupKeys {files : List FileInfo} {p : String} :
    p ∈ groupKeys files ↔ ∃ f ∈ files, digitHash f.name = p := by
  simp [groupKeys, mem_insertOrder, List.mem_map]

theorem mem_seriesGroups {files : List FileInfo} {g : String × List FileInfo} :
    g ∈ seriesGroups files ↔ ∃ q ∈ groupKeys files, (q, groupOf files q) = g := by
  simp [seriesGroups, List.mem_map]

/-- C7 (amended): the relationship detector's `detect_file_series` reports
as a series exactly those groups of input files sharing the same
digit-normalised name whose size is AT LEAST 3 and whose pattern contains
the `#` placeholder (so a group of exactly 3 numbered files is reported),
while the analyzer's `_detect_patterns` series detector reports exactly
the groups of size strictly greater than 3, with no placeholder
requirement. -/
theorem series_detection_characterized (files : List FileInfo) (p : String) (n : Nat) :
    ((∃ r ∈ detect_file_series files, r.pattern = p ∧ r.count = n) ↔
      ((∃ f ∈ files, digitHash f.name = p) ∧ n = (groupOf files p).length
        ∧ 3 ≤ n ∧ p.data.contains '#' = true))
    ∧ (∀ fs : List FileInfo, fs ∈ analyzerSeriesGroups files ↔
        ∃ q, (∃ f ∈ files, digitHash f.name = q) ∧ fs = groupOf files q
          ∧ 3 < (groupOf files q).length) := by
  constructor
  · constructor
    · rintro ⟨r, hr, hp, hn⟩
      rw [detect_file_series] at hr
      rcases List.mem_filterMap.mp hr with ⟨g, hg, hsome⟩
      rcases mem_seriesGroups.mp hg with ⟨q, hq, hgq⟩
      subst hgq
      by_cases hcond : (3 ≤ (groupOf files q).length && (q.data.contains '#')) = true
      · rw [if_pos hcond] at hsome
        have hrec := Option.some.inj hsome
        have hpq : q = p := by rw [← hp, ← hrec]
        subst hpq
        have hcnt : n = (groupOf files q).length := by rw [← hn, ← hrec]
        have hcond' : 3 ≤ (groupOf files q).length ∧ q.data.contains '#' = true := by
          simpa using hcond
        exact ⟨mem_groupKeys.mp hq, hcnt, by rw [hcnt]; exact hcond'.1, hcond'.2⟩
      · rw [if_neg hcond] at hsome
        exact absurd hsome (by simp)
    · rintro ⟨⟨f, hf, hfp⟩, hn, h3, hhash⟩
      have hq : p ∈ groupKeys files := mem_groupKeys.mpr ⟨f, hf, hfp⟩
      have hcond : (3 ≤ (groupOf files p).length && (p.data.contains '#')) = true := by
        simp only [Bool.and_eq_true, decide_eq_true_eq]
        exact ⟨hn ▸ h3, hhash⟩
      refine ⟨_, List.mem_filterMap.mpr ⟨(p, groupOf files p),
        mem_seriesGroups.mpr ⟨p, hq, rfl⟩, by rw [if_pos hcond]⟩, rfl, hn.symm⟩
  · intro fs
    constructor
    · intro hfs
      rw [analyzerSeriesGroups] at hfs
      rcases List.mem_filterMap.mp hfs with ⟨g, hg, hsome⟩
      rcases mem_seriesGroups.mp hg with ⟨q, hq, hgq⟩
      subst hgq
      by_cases hlen : 3 < (groupOf files q).length
      · rw [if_pos hlen] at hsome
        exact ⟨q, mem_groupKeys.mp hq, (Option.some.inj hsome).symm, hlen⟩
      · rw [if_neg hlen] at hsome
        exact absurd hsome (by simp)
    · rintro ⟨q, hqk, hfs, hlen⟩
      subst hfs
      exact List.mem_filterMap.mpr ⟨(q, groupOf files q),
        mem_seriesGroups.mpr ⟨q, mem_groupKeys.mpr hqk, rfl⟩, by rw [if_pos hlen]⟩

/-! ## C2 -/

theorem fsUpdate_self (fs : Fs) (p : String) (v : Option String) :
    fsUpdate fs p v p = v := if_pos rfl

theorem fsUpdate_ne (fs : Fs) {p q : String} (v : Option String) (h : q ≠ p) :
    fsUpdate fs p v q = fs q := if_neg h

theorem find?_append_of_none {l l' : List α} {p : α → Bool} (h : l.find? p = none) :
    (l ++ l').find? p = l'.find? p := by
  induction l with
  | nil => rfl
  | cons x l ih =>
    cases hx : p x
    · rw [List.find?_cons_of_neg _ (by simp [hx])] at h
      rw [List.cons_append, List.find?_cons_of_neg _ (by simp [hx])]
      exact ih h
    · rw [List.find?_cons_of_pos _ hx] at h
      exact absurd h (by simp)

theorem undoCheckpoint_of_undone (fs : Fs) (st : UndoState) (cid : String) (cp : Checkpoint)
    (hfind : st.history.find? (fun c => c.id == cid) = some cp) (hu : cp.undone = true) :
    undoCheckpoint fs st cid = ⟨st, fs, .err ("Already undone")⟩ := by
  rw [undoCheckpoint, hfind]
  exact if_pos hu

/-- C2: undo is single-shot. Whenever a first `undo_checkpoint` call on an
id succeeds, the second call on the same id returns the structured failure
`Already undone`, leaves the filesystem untouched (no file writes) and
leaves the stored checkpoint state unchanged: the success path marks the
found checkpoint `undone`, and the second call's scan finds that marked
checkpoint and returns before any restore step. -/
theorem undo_single_shot (fs : Fs) (st : UndoState) (cid : String)
    (h : (undoCheckpoint fs st cid).result.success = true) :
    (undoCheckpoint (undoCheckpoint fs st cid).fs (undoCheckpoint fs st cid).state cid).result
        = .err ("Already undone")
    ∧ (undoCheckpoint (undoCheckpoint fs st cid).fs (undoCheckpoint fs st cid).state cid).fs
        = (undoCheckpoint fs st cid).fs
    ∧ (undoCheckpoint (undoCheckpoint fs st cid).fs (undoCheckpoint fs st cid).state cid).state
        = (undoCheckpoint fs st cid).state := by
  cases hfind : st.history.find? (fun c => c.id == cid) with
  | none =>
    rw [undoCheckpoint, hfind] at h
    simp [UndoResult.success] at h
  | some cp =>
    cases hu : cp.undone with
    | true =>
      rw [undoCheckpoint_of_undone fs st cid cp hfind hu] at h
      simp [UndoResult.success] at h
    | false =>
      have hout : undoCheckpoint fs st cid
          = ⟨{ st with
                history := updateFirst (fun c => c.id == cid)
                  (markUndone (cp.files.foldl restoreStep (fs, 0, [])).2.1
                    (cp.files.foldl restoreStep (fs, 0, [])).2.2) st.history },
              (cp.files.foldl restoreStep (fs, 0, [])).1,
              .ok cid (cp.files.foldl restoreStep (fs, 0, [])).2.1
                (cp.files.foldl restoreStep (fs, 0, [])).2.2⟩ := by
        rw [undoCheckpoint, hfind]
        exact if_neg (by simp [hu])
      have hfind2 : (undoCheckpoint fs st cid).state.history.find? (fun c => c.id == cid)
          = some (markUndone (cp.files.foldl restoreStep (fs, 0, [])).2.1
              (cp.files.foldl restoreStep (fs, 0, [])).2.2 cp) := by
        rw [hout]
        show (updateFirst (fun c => c.id == cid) _ st.history).find? _ = _
        have hpres := find?_updateFirst (fun c : Checkpoint => c.id == cid)
          (markUndone (cp.files.foldl restoreStep (fs, 0, [])).2.1
            (cp.files.foldl restoreStep (fs, 0, [])).2.2) st.history (fun a ha => ha)
        rw [hpres, hfind]
        rfl
      rw [undoCheckpoint_of_undone _ _ _ _ hfind2 rfl]
      exact ⟨rfl, rfl, rfl⟩

/-- C2 witness: on the concrete state the first undo succeeds and the
theorem yields the structured failure for the second call. -/
theorem undo_single_shot_witness :
    (undoCheckpoint exFs exUndoState ("c1")).result.success = true
    ∧ (undoCheckpoint (undoCheckpoint exFs exUndoState ("c1")).fs
        (undoCheckpoint exFs exUndoState ("c1")).state ("c1")).result
      = .err ("Already undone") :=
  ⟨by decide, (undo_single_shot exFs exUndoState ("c1") (by decide)).1⟩

/-! ## C1 -/

theorem backupPathOf_inj {st : UndoState} {cid x y : String}
    (h : backupPathOf st cid x = backupPathOf st cid y) : x = y := by
  unfold backupPathOf at h
  exact string_append_left_cancel h

theorem undoCheckpoint_found (fs : Fs) (st : UndoState) (cid : String) (cp : Checkpoint)
    (hfind : st.history.find? (fun c => c.id == cid) = some cp) (hu : cp.undone = false) :
    (undoCheckpoint fs st cid).result
        = .ok cid (cp.files.foldl restoreStep (fs, 0, [])).2.1
            (cp.files.foldl restoreStep (fs, 0, [])).2.2
    ∧ (undoCheckpoint fs st cid).fs = (cp.files.foldl restoreStep (fs, 0, [])).1 := by
  rw [undoCheckpoint, hfind]
  simp only [hu]
  exact ⟨rfl, rfl⟩

/-- C1: checkpoint round trip. Creating a checkpoint over two distinct
existing files `A` and `B`, deleting both from the filesystem, and undoing
the checkpoint restores both files at their original paths with their
original (byte-identical) contents, and the undo call reports success with
2 files restored and no errors. The hypotheses ask that the checkpoint id
is fresh in the history and that the two backup paths do not collide with
the data files themselves (true of any real layout, where the backups live
under the backup directory). -/
theorem checkpoint_roundtrip (fs : Fs) (st : UndoState) (cid A B a b : String)
    (hAB : A ≠ B) (hA : fs A = some a) (hB : fs B = some b)
    (hfresh : ∀ cp ∈ st.history, cp.id ≠ cid)
    (h1 : backupPathOf st cid A ≠ A) (h2 : backupPathOf st cid A ≠ B)
    (h3 : backupPathOf st cid B ≠ A) (h4 : backupPathOf st cid B ≠ B) :
    (undoCheckpoint
        (fsUpdate (fsUpdate (createCheckpoint fs st cid ("cleanup") ("d") [A, B]).fs A none) B none)
        (createCheckpoint fs st cid ("cleanup") ("d") [A, B]).state cid).result = .ok cid 2 []
    ∧ (undoCheckpoint
        (fsUpdate (fsUpdate (createCheckpoint fs st cid ("cleanup") ("d") [A, B]).fs A none) B none)
        (createCheckpoint fs st cid ("cleanup") ("d") [A, B]).state cid).fs A = some a
    ∧ (undoCheckpoint
        (fsUpdate (fsUpdate (createCheckpoint fs st cid ("cleanup") ("d") [A, B]).fs A none) B none)
        (createCheckpoint fs st cid ("cleanup") ("d") [A, B]).state cid).fs B = some b := by
  have hbAB : backupPathOf st cid A ≠ backupPathOf st cid B :=
    fun h => hAB (backupPathOf_inj h)
  have s1 : backupStep st cid (fs, ([] : List BackupEntry)) A
      = (fsUpdate fs (backupPathOf st cid A) (some a),
         [⟨A, backupPathOf st cid A, a.length⟩]) := by
    rw [backupStep, hA]
    rfl
  have s2 : backupStep st cid
      (fsUpdate fs (backupPathOf st cid A) (some a),
        [⟨A, backupPathOf st cid A, a.length⟩]) B
      = (fsUpdate (fsUpdate fs (backupPathOf st cid A) (some a)) (backupPathOf st cid B) (some b),
         [⟨A, backupPathOf st cid A, a.length⟩, ⟨B, backupPathOf st cid B, b.length⟩]) := by
    rw [backupStep, fsUpdate_ne _ _ (Ne.symm h2), hB]
    rfl
  have hcre : createCheckpoint fs st cid ("cleanup") ("d") [A, B]
      = ⟨{ st with history := st.history ++
            [{ id := cid, operation := "cleanup", description := "d", files_count := 2,
               files := [⟨A, backupPathOf st cid A, a.length⟩,
                         ⟨B, backupPathOf st cid B, b.length⟩],
               checkpoint_dir := st.backup_dir ++ "/" ++ cid, can_undo := true }] },
          fsUpdate (fsUpdate fs (backupPathOf st cid A) (some a))
            (backupPathOf st cid B) (some b),
          cid⟩ := by
    simp only [createCheckpoint, List.foldl_cons, List.foldl_nil, s1, s2]
    rfl
  have hcfs : (createCheckpoint fs st cid ("cleanup") ("d") [A, B]).fs
      = fsUpdate (fsUpdate fs (backupPathOf st cid A) (some a))
          (backupPathOf st cid B) (some b) := by
    rw [hcre]
  have hcst : (createCheckpoint fs st cid ("cleanup") ("d") [A, B]).state.history
      = st.history ++
          [{ id := cid, operation := "cleanup", description := "d", files_count := 2,
             files := [⟨A, backupPathOf st cid A, a.length⟩,
                       ⟨B, backupPathOf st cid B, b.length⟩],
             checkpoint_dir := st.backup_dir ++ "/" ++ cid, can_undo := true }] := by
    rw [hcre]
  have hfindst : st.history.find? (fun c => c.id == cid) = none := by
    rw [List.find?_eq_none]
    intro x hx
    simp [hfresh x hx]
  have hfindS : (createCheckpoint fs st cid ("cleanup") ("d") [A, B]).state.history.find?
        (fun c => c.id == cid)
      = some { id := cid, operation := "cleanup", description := "d", files_count := 2,
               files := [⟨A, backupPathOf st cid A, a.length⟩,
                         ⟨B, backupPathOf st cid B, b.length⟩],
               checkpoint_dir := st.backup_dir ++ "/" ++ cid, can_undo := true } := by
    rw [hcst, find?_append_of_none hfindst]
    exact List.find?_cons_of_pos _ (by simp)
  rw [hcfs]
  have hfound := undoCheckpoint_found
    (fsUpdate (fsUpdate (fsUpdate (fsUpdate fs (backupPathOf st cid A) (some a))
      (backupPathOf st cid B) (some b)) A none) B none)
    (createCheckpoint fs st cid ("cleanup") ("d") [A, B]).state cid
    _ hfindS rfl
  have hlookA : (fsUpdate (fsUpdate (fsUpdate (fsUpdate fs (backupPathOf st cid A) (some a))
      (backupPathOf st cid B) (some b)) A none) B none) (backupPathOf st cid A) = some a := by
    rw [fsUpdate_ne _ _ h2, fsUpdate_ne _ _ h1, fsUpdate_ne _ _ hbAB, fsUpdate_self]
  have r1 : restoreStep
      (fsUpdate (fsUpdate (fsUpdate (fsUpdate fs (backupPathOf st cid A) (some a))
        (backupPathOf st cid B) (some b)) A none) B none, 0, ([] : List String))
      ⟨A, backupPathOf st cid A, a.length⟩
      = (fsUpdate (fsUpdate (fsUpdate (fsUpdate (fsUpdate fs (backupPathOf st cid A) (some a))
          (backupPathOf st cid B) (some b)) A none) B none) A (some a), 1, []) := by
    rw [restoreStep, hlookA]
  have hlookB : (fsUpdate (fsUpdate (fsUpdate (fsUpdate (fsUpdate fs
        (backupPathOf st cid A) (some a)) (backupPathOf st cid B) (some b)) A none) B none)
      A (some a)) (backupPathOf st cid B) = some b := by
    rw [fsUpdate_ne _ _ h3, fsUpdate_ne _ _ h4, fsUpdate_ne _ _ h3, fsUpdate_self]
  have r2 : restoreStep
      (fsUpdate (fsUpdate (fsUpdate (fsUpdate (fsUpdate fs (backupPathOf st cid A) (some a))
        (backupPathOf st cid B) (some b)) A none) B none) A (some a), 1, ([] : List String))
      ⟨B, backupPathOf st cid B, b.length⟩
      = (fsUpdate (fsUpdate (fsUpdate (fsUpdate (fsUpdate (fsUpdate fs
          (backupPathOf st cid A) (some a)) (backupPathOf st cid B) (some b)) A none) B none)
          A (some a)) B (some b), 2, []) := by
    rw [restoreStep, hlookB]
  rcases hfound with ⟨hres, hfs⟩
  have hfold : ([⟨A, backupPathOf st cid A, a.length⟩,
        ⟨B, backupPathOf st cid B, b.length⟩] : List BackupEntry).foldl restoreStep
      (fsUpdate (fsUpdate (fsUpdate (fsUpdate fs (backupPathOf st cid A) (some a))
        (backupPathOf st cid B) (some b)) A none) B none, 0, ([] : List String))
      = (fsUpdate (fsUpdate (fsUpdate (fsUpdate (fsUpdate (fsUpdate fs
          (backupPathOf st cid A) (some a)) (backupPathOf st cid B) (some b)) A none) B none)
          A (some a)) B (some b), 2, []) := by
    rw [List.foldl_cons, r1, List.foldl_cons, r2, List.foldl_nil]
  simp only [hfold] at hres hfs
  refine ⟨hres, ?_, ?_⟩
  · rw [hfs, fsUpdate_ne _ _ hAB, fsUpdate_self]
  · rw [hfs, fsUpdate_self]

/-- C1 witness: a concrete two-file round trip. -/
theorem checkpoint_roundtrip_witness :
    (undoCheckpoint
        (fsUpdate (fsUpdate (createCheckpoint exFs2 ⟨"bk", []⟩ ("cp1") ("cleanup") ("d")
          ["f1", "f2"]).fs ("f1") none) ("f2") none)
        (createCheckpoint exFs2 ⟨"bk", []⟩ ("cp1") ("cleanup") ("d") ["f1", "f2"]).state
        ("cp1")).result = .ok ("cp1") 2 []
    ∧ (undoCheckpoint
        (fsUpdate (fsUpdate (createCheckpoint exFs2 ⟨"bk", []⟩ ("cp1") ("cleanup") ("d")
          ["f1", "f2"]).fs ("f1") none) ("f2") none)
        (createCheckpoint exFs2 ⟨"bk", []⟩ ("cp1") ("cleanup") ("d") ["f1", "f2"]).state
        ("cp1")).fs ("f1") = some ("xx")
    ∧ (undoCheckpoint
        (fsUpdate (fsUpdate (createCheckpoint exFs2 ⟨"bk", []⟩ ("cp1") ("cleanup") ("d")
          ["f1", "f2"]).fs ("f1") none) ("f2") none)
        (createCheckpoint exFs2 ⟨"bk", []⟩ ("cp1") ("cleanup") ("d") ["f1", "f2"]).state
        ("cp1")).fs ("f2") = some ("yy") :=
  checkpoint_roundtrip exFs2 ⟨"bk", []⟩ ("cp1") ("f1") ("f2") ("xx") ("yy")
    (by decide) (by decide) (by decide) (by decide)
    (by decide) (by decide) (by decide) (by decide)

/-! ## C4 -/

/-- C4 counterexample: the claim says a prediction of "none" happens
exactly when the recent window is empty, but a window holding only
rejected actions is nonempty and still yields `(none, 0)`. -/
theorem predict_none_on_nonempty_window :
    predict_next_action exMemRejected = (none, 0)
    ∧ exMemRejected.user_actions ≠ [] :=
  ⟨by decide, by decide⟩

theorem firstMaxBy_spec (counts : String → Nat) (ks : List String) :
    ∀ k, (firstMaxBy counts k ks).2 = counts (firstMaxBy counts k ks).1
      ∧ counts k ≤ (firstMaxBy counts k ks).2
      ∧ (∀ u ∈ ks, counts u ≤ (firstMaxBy counts k ks).2)
      ∧ ((firstMaxBy counts k ks).1 = k ∨ (firstMaxBy counts k ks).1 ∈ ks) := by
  induction ks with
  | nil => intro k; exact ⟨rfl, Nat.le_refl _, by simp, Or.inl rfl⟩
  | cons u ks ih =>
    intro k
    by_cases hgt : counts u > counts k
    · have hstep : firstMaxBy counts k (u :: ks) = firstMaxBy counts u ks := by
        unfold firstMaxBy
        rw [List.foldl_cons]
        congr 1
        show (if counts u > counts k then (u, counts u) else (k, counts k)) = (u, counts u)
        rw [if_pos hgt]
      rcases ih u with ⟨ha, hb, hc, hd⟩
      rw [hstep]
      refine ⟨ha, le_trans (Nat.le_of_lt hgt) hb, fun v hv => ?_, ?_⟩
      · rcases List.mem_cons.mp hv with hv | hv
        · subst hv; exact hb
        · exact hc v hv
      · rcases hd with hd | hd
        · exact Or.inr (by rw [hd]; exact List.mem_cons_self u ks)
        · exact Or.inr (List.mem_cons_of_mem _ hd)
    · have hstep : firstMaxBy counts k (u :: ks) = firstMaxBy counts k ks := by
        unfold firstMaxBy
        rw [List.foldl_cons]
        congr 1
        show (if counts u > counts k then (u, counts u) else (k, counts k)) = (k, counts k)
        rw [if_neg hgt]
      rcases ih k with ⟨ha, hb, hc, hd⟩
      rw [hstep]
      refine ⟨ha, hb, fun v hv => ?_, ?_⟩
      · rcases List.mem_cons.mp hv with hv | hv
        · subst hv; exact le_trans (Nat.le_of_not_lt hgt) hb
        · exact hc v hv
      · rcases hd with hd | hd
        · exact Or.inl hd
        · exact Or.inr (List.mem_cons_of_mem _ hd)

theorem mem_acceptedKinds {w : List UserAction} {u : String} (h : u ∈ acceptedKinds w) :
    ∃ a ∈ w, a.accepted = true ∧ a.atype = u := by
  unfold acceptedKinds at h
  rcases List.mem_map.mp (mem_insertOrder.mp h) with ⟨a, ha, hau⟩
  rcases List.mem_filter.mp ha with ⟨haw, hacc⟩
  exact ⟨a, haw, by simpa using hacc, hau⟩

theorem acceptedCount_pos_mem {w : List UserAction} {u : String}
    (h : 0 < acceptedCount w u) : u ∈ acceptedKinds w := by
  unfold acceptedCount at h
  rcases List.exists_mem_of_length_pos h with ⟨a, ha⟩
  rcases List.mem_filter.mp ha with ⟨haw, hcond⟩
  have hacc : a.accepted = true ∧ a.atype = u := by
    have := hcond
    simp [Bool.and_eq_true] at this
    exact this
  unfold acceptedKinds
  exact mem_insertOrder.mpr (List.mem_map.mpr
    ⟨a, List.mem_filter.mpr ⟨haw, by simp [hacc.1]⟩, hacc.2⟩)

/-- C4 (amended): `predict_next_action` takes its majority vote over the
accepted actions within the most recent 20 logged actions (accepted or
rejected alike, and fewer when the log is shorter); it returns no
prediction exactly when that window contains no accepted action — in
particular, but not only, when the log is empty; on a prediction
`(some t, c)`, `t` is an accepted kind of the window with the greatest
accepted-count (first-seen kind winning ties) and `c` is the integer part
of `100 * count(t) / (window length)`. -/
theorem predict_next_action_characterized (m : Memory) :
    ((predict_next_action m).1 = none ↔ ∀ a ∈ recentWindow m, a.accepted = false)
    ∧ (∀ t c, predict_next_action m = (some t, c) →
        (∃ a ∈ recentWindow m, a.accepted = true ∧ a.atype = t)
        ∧ (∀ u, acceptedCount (recentWindow m) u ≤ acceptedCount (recentWindow m) t)
        ∧ c = acceptedCount (recentWindow m) t * 100 / (recentWindow m).length) := by
  by_cases hemp : (recentWindow m).isEmpty = true
  · have hnil : recentWindow m = [] := by simpa using hemp
    have hpred : predict_next_action m = (none, 0) := by
      simp only [predict_next_action]
      rw [if_pos hemp]
    constructor
    · rw [hpred]
      simp [hnil]
    · intro t c heq
      rw [hpred] at heq
      simp at heq
  · cases hk : acceptedKinds (recentWindow m) with
    | nil =>
      have hall : ∀ a ∈ recentWindow m, a.accepted = false := by
        have hfil : (recentWindow m).filter (fun x => x.accepted) = [] := by
          have hmap := insertOrder_eq_nil.mp hk
          exact List.map_eq_nil_iff.mp hmap
        intro a ha
        cases hacc : a.accepted
        · rfl
        · exfalso
          have : a ∈ (recentWindow m).filter (fun x => x.accepted) :=
            List.mem_filter.mpr ⟨ha, hacc⟩
          rw [hfil] at this
          simp at this
      have hpred : predict_next_action m = (none, 0) := by
        simp only [predict_next_action]
        rw [if_neg hemp, hk]
      constructor
      · rw [hpred]
        exact ⟨fun _ => hall, fun _ => rfl⟩
      · intro t c heq
        rw [hpred] at heq
        simp at heq
    | cons k ks =>
      have hpred : predict_next_action m
          = (some (firstMaxBy (acceptedCount (recentWindow m)) k ks).1,
             (firstMaxBy (acceptedCount (recentWindow m)) k ks).2 * 100
               / (recentWindow m).length) := by
        simp only [predict_next_action]
        rw [if_neg hemp, hk]
      rcases firstMaxBy_spec (acceptedCount (recentWindow m)) ks k with ⟨ha, hb, hc, hd⟩
      have htmem : (firstMaxBy (acceptedCount (recentWindow m)) k ks).1
          ∈ acceptedKinds (recentWindow m) := by
        rw [hk]
        rcases hd with hd | hd
        · rw [hd]; exact List.mem_cons_self _ _
        · exact List.mem_cons_of_mem _ hd
      constructor
      · rw [hpred]
        constructor
        · intro h; simp at h
        · intro hall
          exfalso
          rcases mem_acceptedKinds htmem with ⟨a, haw, hacc, _⟩
          rw [hall a haw] at hacc
          simp at hacc
      · intro t c heq
        rw [hpred] at heq
        have ht : (firstMaxBy (acceptedCount (recentWindow m)) k ks).1 = t := by
          have := congrArg Prod.fst heq
          simpa using this
        have hcval : (firstMaxBy (acceptedCount (recentWindow m)) k ks).2 * 100
            / (recentWindow m).length = c := by
          have := congrArg Prod.snd heq
          simpa using this
        refine ⟨by rw [← ht]; exact mem_acceptedKinds htmem, ?_, ?_⟩
        · intro u
          rw [← ht]
          by_cases hu : 0 < acceptedCount (recentWindow m) u
          · have humem := acceptedCount_pos_mem hu
            rw [hk] at humem
            rw [← ha]
            rcases List.mem_cons.mp humem with hu' | hu'
            · rw [hu']; exact hb
            · exact hc u hu'
          · have : acceptedCount (recentWindow m) u = 0 := by omega
            rw [this]
            exact Nat.zero_le _
        · rw [← hcval, ← ht, ← ha]

/-- C4 witness: on the concrete memory the prediction is
`("cleanup", 33)` and the amended confidence formula holds. -/
theorem predict_next_action_characterized_witness :
    predict_next_action exMem = (some ("cleanup"), 33)
    ∧ 33 = acceptedCount (recentWindow exMem) ("cleanup") * 100
        / (recentWindow exMem).length :=
  ⟨by decide,
    ((predict_next_action_characterized exMem).2 ("cleanup") 33 (by decide)).2.2⟩

/-! ## C10 -/

/-- C10 counterexample: `evaluate_conditions` on an empty list is
vacuously true, but an enabled rule with an empty conditions list does NOT
trigger on every file of the batch: a higher-priority rule with
`stop_on_match` set (here matching everything) preempts it, so `rule_2`
never fires — its match count stays 0 and no action entry of it appears. -/
theorem empty_conditions_rule_preempted :
    ((applyRules (fun _ _ => false) 0 [exRuleStop, exRuleEmpty] [exFile]).1.map
        (fun r => r.match_count)) = [1, 0]
    ∧ ((applyRules (fun _ _ => false) 0 [exRuleStop, exRuleEmpty] [exFile]).2 ("p")).all
        (fun t => t.rule_id ≠ "rule_2") = true :=
  ⟨by decide, by decide⟩

theorem insertDesc_perm (r : Nat × Rule) (l : List (Nat × Rule)) :
    (insertDesc r l).Perm (r :: l) := by
  induction l with
  | nil => exact List.Perm.refl _
  | cons x xs ih =>
    rw [insertDesc]
    split
    · exact (ih.cons x).trans (List.Perm.swap r x xs)
    · exact List.Perm.refl _

theorem sortRules_perm (l : List (Nat × Rule)) : (sortRules l).Perm l := by
  suffices h : ∀ acc, (l.foldl (fun acc r => insertDesc r acc) acc).Perm (acc ++ l) by
    simpa using h []
  induction l with
  | nil => intro acc; simp
  | cons x xs ih =>
    intro acc
    rw [List.foldl_cons]
    refine (ih (insertDesc x acc)).trans (List.Perm.trans ?_ List.perm_middle.symm)
    exact (insertDesc_perm x acc).append_right xs

theorem snd_mem_of_mem_enumFrom {l : List α} :
    ∀ {n : Nat} {p : Nat × α}, p ∈ l.enumFrom n → p.2 ∈ l := by
  induction l with
  | nil => intro n p h; simp [List.enumFrom] at h
  | cons x xs ih =>
    intro n p h
    rw [List.enumFrom] at h
    rcases List.mem_cons.mp h with h | h
    · rw [h]; exact List.mem_cons_self _ _
    · exact List.mem_cons_of_mem _ (ih h)

theorem getElem?_enumFrom (l : List α) :
    ∀ (n i : Nat), (l.enumFrom n)[i]? = l[i]?.map (fun a => (n + i, a)) := by
  induction l with
  | nil => intro n i; simp [List.enumFrom]
  | cons x xs ih =>
    intro n i
    cases i with
    | zero => simp [List.enumFrom]
    | succ i =>
      rw [List.enumFrom, List.getElem?_cons_succ, List.getElem?_cons_succ, ih (n + 1) i]
      have harith : n + 1 + i = n + (i + 1) := by omega
      rw [harith]

theorem fileMatches_no_stop (rg : RegexOracle) (now : Int) (f : FileInfo) :
    ∀ (sorted : List (Nat × Rule)), (∀ ir ∈ sorted, ir.2.stop_on_match = false) →
      fileMatches rg now sorted f
        = sorted.filter (fun ir => evaluate_conditions rg now f ir.2.conditions) := by
  intro sorted
  induction sorted with
  | nil => intro _; rfl
  | cons ir rest ih =>
    intro hstop
    have hrest := ih (fun x hx => hstop x (List.mem_cons_of_mem _ hx))
    have hs := hstop ir (List.mem_cons_self _ _)
    cases he : evaluate_conditions rg now f ir.2.conditions
    · rw [fileMatches]
      simp [he, List.filter_cons, hrest]
    · rw [fileMatches]
      simp [he, hs, List.filter_cons, hrest]

/-- C10 (amended): `evaluate_conditions` returns true for every file when
the conditions list is empty (a vacuous conjunction), and consequently —
provided no rule of the store has `stop_on_match` set, since a matching
higher-priority stop rule preempts later ones (see the counterexample) —
an enabled rule with an empty conditions list triggers on every file of
the batch: its match count increases by exactly the batch size. -/
theorem empty_conditions_rule_triggers (rg : RegexOracle) (now : Int)
    (rules : List Rule) (files : List FileInfo) (i : Nat) (r : Rule)
    (hget : rules[i]? = some r) (hen : r.enabled = true) (hc : r.conditions = [])
    (hstop : ∀ r' ∈ rules, r'.stop_on_match = false) :
    (∀ f : FileInfo, evaluate_conditions rg now f [] = true)
    ∧ (applyRules rg now rules files).1[i]?
        = some { r with match_count := r.match_count + files.length } := by
  refine ⟨fun f => rfl, ?_⟩
  have henum : rules.enum[i]? = some (i, r) := by
    show (rules.enumFrom 0)[i]? = _
    rw [getElem?_enumFrom rules 0 i, hget]
    simp
  have hmemenum : (i, r) ∈ rules.enum := List.getElem?_mem henum
  have hmemfil : (i, r) ∈ rules.enum.filter (fun ir => ir.2.enabled) :=
    List.mem_filter.mpr ⟨hmemenum, by simpa using hen⟩
  have hmemsorted : (i, r) ∈ sortedEnabled rules :=
    ((sortRules_perm _).mem_iff).mpr hmemfil
  have hstop' : ∀ ir ∈ sortedEnabled rules, ir.2.stop_on_match = false := by
    intro ir hir
    have hmf : ir ∈ rules.enum.filter (fun ir => ir.2.enabled) :=
      ((sortRules_perm _).mem_iff).mp hir
    have hme : ir ∈ rules.enumFrom 0 := (List.mem_filter.mp hmf).1
    exact hstop _ (snd_mem_of_mem_enumFrom hme)
  have hnodup : ((sortedEnabled rules).map Prod.fst).Nodup := by
    have hsub : ((rules.enum.filter (fun ir => ir.2.enabled)).map Prod.fst).Sublist
        (rules.enum.map Prod.fst) := (List.filter_sublist _).map _
    rw [List.enum_map_fst] at hsub
    exact (((sortRules_perm _).map Prod.fst).nodup_iff).mpr (hsub.nodup (List.nodup_range _))
  have hcount : ∀ f : FileInfo,
      ((fileMatches rg now (sortedEnabled rules) f).map Prod.fst).count i = 1 := by
    intro f
    rw [fileMatches_no_stop rg now f _ hstop']
    have hmemf : (i, r) ∈ (sortedEnabled rules).filter
        (fun ir => evaluate_conditions rg now f ir.2.conditions) :=
      List.mem_filter.mpr ⟨hmemsorted, by rw [hc]; rfl⟩
    have hsubl : (((sortedEnabled rules).filter
        (fun ir => evaluate_conditions rg now f ir.2.conditions)).map Prod.fst).Sublist
        ((sortedEnabled rules).map Prod.fst) := (List.filter_sublist _).map _
    exact List.count_eq_one_of_mem (hsubl.nodup hnodup)
      (List.mem_map.mpr ⟨(i, r), hmemf, rfl⟩)
  have htot : ((files.map (fun f => (f.path, fileMatches rg now (sortedEnabled rules) f))).flatMap
      (fun pm => pm.2.map Prod.fst)).count i = files.length := by
    induction files with
    | nil => rfl
    | cons f fs ihf =>
      rw [List.map_cons, List.flatMap_cons, List.count_append, ihf]
      have hcf : (((f.path, fileMatches rg now (sortedEnabled rules) f)).2.map Prod.fst).count i = 1 :=
        hcount f
      rw [hcf]
      simp [Nat.add_comm]
  simp only [applyRules, List.getElem?_map, henum, Option.map_some']
  rw [htot]

/-- C10 witness: a single enabled rule with empty conditions on a
one-file batch triggers on it. -/
theorem empty_conditions_rule_triggers_witness :
    evaluate_conditions (fun _ _ => false) 0 exFile [] = true
    ∧ (applyRules (fun _ _ => false) 0 [exRuleEmpty] [exFile]).1[0]?
        = some { exRuleEmpty with match_count := exRuleEmpty.match_count + [exFile].length } :=
  ⟨(empty_conditions_rule_triggers (fun _ _ => false) 0 [exRuleEmpty] [exFile] 0 exRuleEmpty
      (by decide) (by decide) (by decide) (by decide)).1 exFile,
   (empty_conditions_rule_triggers (fun _ _ => false) 0 [exRuleEmpty] [exFile] 0 exRuleEmpty
      (by decide) (by decide) (by decide) (by decide)).2⟩

end SentinelForge
